import Mathlib

/-!
# gokogiri `xml/document.go`: ownership and teardown of an XML document

A shallow embedding of `src/xml/document.go`.  Native (cgo) pointers are
natural numbers with `0` for `nil`; Go pointers to host objects
(`*XmlDocument`, `*DocumentFragment`) are references into an explicit heap,
so that aliasing (one fragment bookkept twice, a fragment owned by another
document) is represented.  Go byte slices are windows on backing arrays held
in a byte memory, so that `append` writes in place when the slice has spare
capacity and is seen through every slice cut from the same array.  The native
collaborators (`C.xmlParse`, `C.newEmptyXmlDoc`, the node-type read) and the
growth policy of the Go runtime are parameters; every call that crosses the
native boundary is recorded in a call trace.
-/

namespace Gokogiri

/-! ## Data model -/

/-- A native address (`unsafe.Pointer`, `*C.xmlDoc`, `*C.xmlNode`); `0` is `nil`. -/
abbrev Pointer := Nat

/-- The bytes a Go byte slice holds. -/
abbrev Bytes := List UInt8

/-- A Go byte slice `[]byte`: a window of `len` bytes, with room for `cap`, that
starts at index `off` of the backing array `arr`. -/
structure Slice where
  arr : Nat
  off : Nat
  len : Nat
  cap : Nat
  deriving DecidableEq, Repr

/-- The nil slice. -/
def Slice.nil : Slice := { arr := 0, off := 0, len := 0, cap := 0 }

/-- An address inside a backing array, as handed to the native library. -/
structure BytePtr where
  arr : Nat
  off : Nat
  deriving DecidableEq, Repr

/-- The address `unsafe.Pointer(&s[0])` of the first byte of a slice. -/
def Slice.ptr (s : Slice) : BytePtr := { arr := s.arr, off := s.off }

/-- The byte memory of the Go heap: `bytes a i` is byte `i` of backing array `a`;
the arrays `a < next` are allocated, and `next` is the array the next allocation
returns. -/
structure Mem where
  bytes : Nat → Nat → UInt8
  next : Nat

/-- The bytes seen through slice `s`. -/
def Mem.read (m : Mem) (s : Slice) : Bytes :=
  (List.range s.len).map (fun i => m.bytes s.arr (s.off + i))

/-- A reference to a heap-allocated `DocumentFragment` (`*DocumentFragment`). -/
abbrev FragRef := Nat

/-- A reference to a heap-allocated `XmlDocument` (`*XmlDocument`). -/
abbrev DocRef := Nat

/-- An `os.Error` value, identified by its message. -/
structure Error where
  msg : String
  deriving DecidableEq, Repr

/-- The error `var ERR_FAILED_TO_PARSE_XML = os.NewError("failed to parse xml input")`. -/
def ERR_FAILED_TO_PARSE_XML : Error := ⟨"failed to parse xml input"⟩

/-- The constant `DefaultEncoding = "utf-8"`. -/
def DefaultEncoding : String := "utf-8"

/-- The variable `DefaultEncodingBytes = []byte(DefaultEncoding)`. -/
def DefaultEncodingBytes : Bytes := [117, 116, 102, 45, 56]

/-- Modelled from the spec: the XPath context of package `gokogiri/xpath`, which is
not among the sources.  The spec gives `XPathContext.Create(treeHandle) -> Context`;
the context is represented by the tree handle it was created over. -/
structure XPath where
  DocPtr : Pointer
  deriving DecidableEq, Repr

/-- Modelled from the spec: `xpath.NewXPath(p)`, the creation of an XPath context
bound to the tree handle `p`. -/
def NewXPath (p : Pointer) : XPath := ⟨p⟩

/-- The wrapper `&XmlNode{Ptr: (*C.xmlNode)(p)}` embedded in a document as its
`Node`.  Its `Document` back-reference is the document that embeds it. -/
structure XmlNode where
  Ptr : Pointer
  deriving DecidableEq, Repr

/-- The struct `XmlDocument`.  Field `Typ` is the Go field `Type`. -/
structure XmlDocument where
  Ptr : Pointer
  Node : XmlNode
  InEncoding : Slice
  OutEncoding : Slice
  UnlinkedNodes : List Pointer
  XPathCtx : XPath
  Typ : Int
  InputLen : Nat
  fragments : List FragRef
  deriving DecidableEq, Repr

/-- Modelled from the spec: the struct `DocumentFragment` (`fragment.go` is not among
the sources).  The spec gives it an "ordered sequence of native node handles it
groups" and an "owning Document reference". -/
structure DocumentFragment where
  Nodes : List Pointer
  Document : DocRef
  deriving DecidableEq, Repr

/-- One call across the boundary of `document.go`: to the native library, to the
XPath package, or to a fragment's `Remove`. -/
inductive Call where
  | xmlParse (contentPtr : BytePtr) (contentLen : Int) (urlPtr encodingPtr : Option BytePtr)
      (options : Int)
  | newEmptyXmlDoc
  | NewXPath (p : Pointer)
  | xmlParseFragment (doc : Pointer) (input encoding url : Slice) (options : Int)
  | Remove (fragment : FragRef)
  | xmlFreeNode (nodePtr : Pointer)
  | XPathFree (ctx : XPath)
  | xmlFreeDoc (doc : Pointer)
  deriving DecidableEq, Repr

/-- The collaborators `document.go` only calls: the native library and the Go runtime.
`xmlParse m contentPtr contentLen urlPtr encodingPtr options` is `C.xmlParse` run on
the memory `m`, a `none` argument being a `nil` pointer; `newEmptyXmlDoc` is the
handle `C.newEmptyXmlDoc()` returns; `NodeType p` is what `XmlNode.NodeType()` reads
for the node at `p`; `xmlParseFragment` is the fragment parser of the spec's external
interfaces; `growslice n` is the capacity the Go runtime picks when `append` has to
move a slice to a new array that must hold `n` bytes. -/
structure Native where
  xmlParse : Mem → BytePtr → Int → Option BytePtr → Option BytePtr → Int → Pointer
  newEmptyXmlDoc : Pointer
  NodeType : Pointer → Int
  xmlParseFragment : Mem → Pointer → Slice → Slice → Slice → Int → Option (List Pointer)
  growslice : Nat → Nat

/-- The conversion `C.int(n)` of a Go `int`: wrap to 32 bits, two's complement. -/
def CInt (n : Int) : Int := (n + 2 ^ 31) % 2 ^ 32 - 2 ^ 31

/-- The Go builtin `append(s, b)` for one byte `b`.  With spare capacity
(`len(s) < cap(s)`) the byte is written in place, at index `off + len` of the backing
array, where every slice cut from that array sees it, and the result is `s` one byte
longer.  Without, the bytes of `s` and then `b` are copied to a newly allocated
array (the rest of which is zero), of the capacity the runtime picks. -/
def append (nat : Native) (m : Mem) (s : Slice) (b : UInt8) : Mem × Slice :=
  if s.len < s.cap then
    ({ m with bytes := fun a i => if a = s.arr ∧ i = s.off + s.len then b else m.bytes a i },
     { s with len := s.len + 1 })
  else
    ({ bytes := fun a i =>
         if a = m.next then
           (if i < s.len then m.bytes s.arr (s.off + i) else if i = s.len then b else 0)
         else m.bytes a i
       next := m.next + 1 },
     { arr := m.next, off := 0, len := s.len + 1,
       cap := max (s.len + 1) (nat.growslice (s.len + 1)) })

/-- The statement `if len(x) > 0 { x = append(x, 0) }` of `Parse`, run on the memory
`m`: the memory and the slice `x` after it. -/
def terminated (nat : Native) (m : Mem) (x : Slice) : Mem × Slice :=
  if x.len > 0 then append nat m x 0 else (m, x)

/-! ## Creating documents -/

/-- The function `NewDocument`: the document it builds, and the calls it makes. -/
def NewDocument (nat : Native) (p : Pointer) (contentLen : Nat)
    (inEncoding outEncoding : Slice) : XmlDocument × List Call :=
  let xmlNode : XmlNode := { Ptr := p }
  let docPtr : Pointer := p
  ({ Ptr := docPtr, Node := xmlNode, InEncoding := inEncoding, OutEncoding := outEncoding,
     InputLen := contentLen,
     UnlinkedNodes := [],
     XPathCtx := NewXPath p,
     Typ := nat.NodeType xmlNode.Ptr,
     fragments := [] },
   [Call.NewXPath p])

/-- The function `CreateEmptyDocument`. -/
def CreateEmptyDocument (nat : Native) (inEncoding outEncoding : Slice) :
    XmlDocument × List Call :=
  let docPtr := nat.newEmptyXmlDoc
  let r := NewDocument nat docPtr 0 inEncoding outEncoding
  (r.1, Call.newEmptyXmlDoc :: r.2)

/-- What `Parse` returns (`doc`, `err`), with the calls it made and the byte memory
it leaves. -/
structure ParseResult where
  doc : Option XmlDocument
  err : Option Error
  calls : List Call
  mem : Mem

/-- The function `Parse`, run on the byte memory `m`.  Each `x = append(x, 0)` yields
the memory after it and the new slice, in the order of the source: `url`, then
`inEncoding`, then `outEncoding`; `C.xmlParse` runs on the memory after all three. -/
def Parse (nat : Native) (m : Mem) (content inEncoding url : Slice) (options : Int)
    (outEncoding : Slice) : ParseResult :=
  let contentLen := content.len
  if contentLen > 0 then
    let contentPtr := content.ptr
    let url1 := if url.len > 0 then append nat m url 0 else (m, url)
    let urlPtr : Option BytePtr := if url.len > 0 then some url1.2.ptr else none
    let inEncoding1 :=
      if inEncoding.len > 0 then append nat url1.1 inEncoding 0 else (url1.1, inEncoding)
    let encodingPtr : Option BytePtr :=
      if inEncoding.len > 0 then some inEncoding1.2.ptr else none
    let outEncoding1 :=
      if outEncoding.len > 0 then append nat inEncoding1.1 outEncoding 0
      else (inEncoding1.1, outEncoding)
    let docPtr :=
      nat.xmlParse outEncoding1.1 contentPtr (CInt contentLen) urlPtr encodingPtr (CInt options)
    let call := Call.xmlParse contentPtr (CInt contentLen) urlPtr encodingPtr (CInt options)
    if docPtr = 0 then
      { doc := none, err := some ERR_FAILED_TO_PARSE_XML, calls := [call], mem := outEncoding1.1 }
    else
      let r := NewDocument nat docPtr contentLen inEncoding1.2 outEncoding1.2
      { doc := some r.1, err := none, calls := call :: r.2, mem := outEncoding1.1 }
  else
    let r := CreateEmptyDocument nat inEncoding outEncoding
    { doc := some r.1, err := none, calls := r.2, mem := m }

/-! ## Accessors and bookkeeping -/

/-- The method `DocPtr`. -/
def XmlDocument.DocPtr (document : XmlDocument) : Pointer := document.Ptr

/-- The method `DocType`. -/
def XmlDocument.DocType (document : XmlDocument) : Int := document.Typ

/-- The method `InputEncoding`. -/
def XmlDocument.InputEncoding (document : XmlDocument) : Slice := document.InEncoding

/-- The method `OutputEncoding`. -/
def XmlDocument.OutputEncoding (document : XmlDocument) : Slice := document.OutEncoding

/-- The method `DocXPathCtx`. -/
def XmlDocument.DocXPathCtx (document : XmlDocument) : XPath := document.XPathCtx

/-- The method `AddUnlinkedNode`: `append(document.UnlinkedNodes, nodePtr)`. -/
def XmlDocument.AddUnlinkedNode (document : XmlDocument) (nodePtr : Pointer) : XmlDocument :=
  { document with UnlinkedNodes := document.UnlinkedNodes ++ [nodePtr] }

/-- The method `BookkeepFragment`: `append(document.fragments, fragment)`. -/
def XmlDocument.BookkeepFragment (document : XmlDocument) (fragment : FragRef) : XmlDocument :=
  { document with fragments := document.fragments ++ [fragment] }

/-! ## The heap and the operations that go through references -/

/-- The host heap: the documents and fragments behind their references, the byte
memory, and the trace of boundary calls made so far (oldest first). -/
structure Heap where
  docs : DocRef → XmlDocument
  frags : FragRef → DocumentFragment
  mem : Mem
  trace : List Call

/-- Store `doc` at reference `d`. -/
def Heap.setDoc (h : Heap) (d : DocRef) (doc : XmlDocument) : Heap :=
  { h with docs := fun r => if r = d then doc else h.docs r }

/-- Store `fr` at reference `f`. -/
def Heap.setFrag (h : Heap) (f : FragRef) (fr : DocumentFragment) : Heap :=
  { h with frags := fun r => if r = f then fr else h.frags r }

/-- Record one boundary call. -/
def Heap.emit (h : Heap) (c : Call) : Heap :=
  { h with trace := h.trace ++ [c] }

/-- `document.AddUnlinkedNode(nodePtr)` through the reference `d`. -/
def Heap.AddUnlinkedNode (h : Heap) (d : DocRef) (nodePtr : Pointer) : Heap :=
  h.setDoc d ((h.docs d).AddUnlinkedNode nodePtr)

/-- `document.BookkeepFragment(fragment)` through the reference `d`. -/
def Heap.BookkeepFragment (h : Heap) (d : DocRef) (fragment : FragRef) : Heap :=
  h.setDoc d ((h.docs d).BookkeepFragment fragment)

/-- The registration loop of `Remove`: one `AddUnlinkedNode` on the owning document
per node handle, in the fragment's order. -/
def registerNodes (d : DocRef) : List Pointer → Heap → Heap
  | [], h => h
  | n :: ns, h => registerNodes d ns (h.AddUnlinkedNode d n)

/-- Modelled from the spec: the method `DocumentFragment.Remove` (`fragment.go` is not
among the sources).  The spec: "for every node handle the fragment owns, calls
`RegisterUnlinkedNode` on the owning Document, then clears its own handle list." -/
def DocumentFragment.Remove (f : FragRef) (h : Heap) : Heap :=
  let fragment := h.frags f
  let h1 := registerNodes fragment.Document fragment.Nodes h
  h1.setFrag f { h1.frags f with Nodes := [] }

/-- The first loop of `Free`: `for _, fragment := range document.fragments { fragment.Remove() }`. -/
def freeFragments : List FragRef → Heap → Heap
  | [], h => h
  | fragment :: rest, h =>
    freeFragments rest (DocumentFragment.Remove fragment (h.emit (Call.Remove fragment)))

/-- The second loop of `Free`:
`for _, nodePtr := range document.UnlinkedNodes { C.xmlFreeNode(nodePtr) }`. -/
def freeUnlinkedNodes : List Pointer → Heap → Heap
  | [], h => h
  | nodePtr :: rest, h => freeUnlinkedNodes rest (h.emit (Call.xmlFreeNode nodePtr))

/-- The method `Free` of the document at reference `d`.  Each `range` expression is
evaluated once, when its loop starts. -/
def XmlDocument.Free (d : DocRef) (h : Heap) : Heap :=
  let h1 := freeFragments (h.docs d).fragments h
  let h2 := freeUnlinkedNodes (h1.docs d).UnlinkedNodes h1
  let h3 := h2.emit (Call.XPathFree (h2.docs d).XPathCtx)
  h3.emit (Call.xmlFreeDoc (h3.docs d).Ptr)

/-- Modelled from the spec: the function `parsefragment` (`fragment.go` is not among
the sources).  The spec: the collaborator `ParseFragment(doc, input, encoding,
sourceLocator, options) -> (TreeHandle-set, success)` is called; on failure the
result is a parse error; on success the result is "a Fragment already bookkept into
the document".  `fresh` is the address of the newly allocated fragment. -/
def parsefragment (nat : Native) (d : DocRef) (input encoding url : Slice) (options : Int)
    (fresh : FragRef) (h : Heap) : Heap × Option FragRef × Option Error :=
  let h1 := h.emit (Call.xmlParseFragment (h.docs d).DocPtr input encoding url options)
  match nat.xmlParseFragment h.mem (h.docs d).DocPtr input encoding url options with
  | none => (h1, none, some ERR_FAILED_TO_PARSE_XML)
  | some nodes =>
    let h2 := h1.setFrag fresh { Nodes := nodes, Document := d }
    (h2.BookkeepFragment d fresh, some fresh, none)

/-- The method `ParseFragment`: `parsefragment(document, input, document.InputEncoding(), url, options)`. -/
def XmlDocument.ParseFragment (nat : Native) (d : DocRef) (input url : Slice) (options : Int)
    (fresh : FragRef) (h : Heap) : Heap × Option FragRef × Option Error :=
  parsefragment nat d input (h.docs d).InputEncoding url options fresh h

/-! ## Definitions used to state the properties -/

/-- The calls `Free` itself makes on the document at `d`: what it adds to the trace. -/
def FreeCalls (d : DocRef) (h : Heap) : List Call :=
  (XmlDocument.Free d h).trace.drop h.trace.length

/-- The registry of the document at `d` as it stands after the removals of `Free`,
when the second loop of `Free` starts. -/
def registryAfterRemovals (d : DocRef) (h : Heap) : List Pointer :=
  ((freeFragments (h.docs d).fragments h).docs d).UnlinkedNodes

/-- The handles that removing the fragments `fs`, in this order, appends to the
registry of the document at `d`: the handles of each fragment that `d` owns, at
the first removal of that fragment (a removed fragment holds no handles). -/
def migrated (d : DocRef) : List FragRef → (FragRef → DocumentFragment) → List Pointer
  | [], _ => []
  | f :: fs, frags =>
    (if (frags f).Document = d then (frags f).Nodes else []) ++
      migrated d fs (fun r => if r = f then { frags f with Nodes := [] } else frags r)

/-- In `Parse`, the statement `append(w, 0)` writes in place and inside the bytes of
`s`: `w` is not empty, has spare capacity, shares the backing array of `s`, and its
first spare byte is one of the bytes of `s`. -/
def writesInto (w s : Slice) : Prop :=
  0 < w.len ∧ w.len < w.cap ∧ w.arr = s.arr ∧ s.off ≤ w.off + w.len ∧
    w.off + w.len < s.off + s.len

instance (w s : Slice) : Decidable (writesInto w s) :=
  inferInstanceAs (Decidable (0 < w.len ∧ w.len < w.cap ∧ w.arr = s.arr ∧
    s.off ≤ w.off + w.len ∧ w.off + w.len < s.off + s.len))

/-- The byte memory that holds the given backing arrays, array `a` being the entry
of index `a`. -/
def Mem.ofArrays (arrays : List Bytes) : Mem :=
  { bytes := fun a i => (arrays.getD a []).getD i 0
    next := arrays.length }

/-- A native library whose parser always returns the handle `p` (`0`: it always
fails), whose empty tree is at `e`, and whose fragment parser returns `nodes`, with a
runtime that doubles the capacity of a slice it moves. -/
def Native.sample (p e : Pointer) (nodes : Option (List Pointer)) : Native :=
  { xmlParse := fun _ _ _ _ _ _ => p
    newEmptyXmlDoc := e
    NodeType := fun _ => 9
    xmlParseFragment := fun _ _ _ _ _ _ => nodes
    growslice := fun n => 2 * n }

/-- A heap in which every document is the empty document over handle `1` and every
fragment is empty, with no backing array and an empty trace. -/
def Heap.sample : Heap :=
  { docs := fun _ => (NewDocument (Native.sample 1 1 none) 1 0 Slice.nil Slice.nil).1
    frags := fun _ => { Nodes := [], Document := 0 }
    mem := Mem.ofArrays []
    trace := [] }

/-- The heap `h` over the byte memory `m`. -/
def Heap.withMem (h : Heap) (m : Mem) : Heap :=
  { h with mem := m }

/-- The calls a caller can make on the document at `d` between its creation and its
`Free`. -/
inductive Op where
  | AddUnlinkedNode (nodePtr : Pointer)
  | BookkeepFragment (fragment : FragRef)
  | Remove (fragment : FragRef)
  deriving DecidableEq, Repr

/-- Run one caller operation on the document at `d`. -/
def Op.run (d : DocRef) : Op → Heap → Heap
  | Op.AddUnlinkedNode nodePtr, h => h.AddUnlinkedNode d nodePtr
  | Op.BookkeepFragment fragment, h => h.BookkeepFragment d fragment
  | Op.Remove fragment, h => DocumentFragment.Remove fragment h

/-- Run a sequence of caller operations, first to last. -/
def runOps (d : DocRef) : List Op → Heap → Heap
  | [], h => h
  | op :: ops, h => runOps d ops (op.run d h)

/-! ## Lemmas on the heap operations -/

theorem registerNodes_trace (d : DocRef) (ns : List Pointer) (h : Heap) :
    (registerNodes d ns h).trace = h.trace := by
  induction ns generalizing h with
  | nil => rfl
  | cons n ns ih => simp [registerNodes, ih, Heap.AddUnlinkedNode, Heap.setDoc]

theorem registerNodes_frags (d : DocRef) (ns : List Pointer) (h : Heap) :
    (registerNodes d ns h).frags = h.frags := by
  induction ns generalizing h with
  | nil => rfl
  | cons n ns ih => simp [registerNodes, ih, Heap.AddUnlinkedNode, Heap.setDoc]

theorem registerNodes_docs (d : DocRef) (ns : List Pointer) (h : Heap) (r : DocRef) :
    (registerNodes d ns h).docs r =
      if r = d then { h.docs d with UnlinkedNodes := (h.docs d).UnlinkedNodes ++ ns }
      else h.docs r := by
  induction ns generalizing h with
  | nil => by_cases hr : r = d <;> simp [registerNodes, hr]
  | cons n ns ih =>
    rw [registerNodes, ih]
    by_cases hr : r = d <;>
      simp [Heap.AddUnlinkedNode, Heap.setDoc, XmlDocument.AddUnlinkedNode, hr]

theorem Remove_trace (f : FragRef) (h : Heap) :
    (DocumentFragment.Remove f h).trace = h.trace := by
  simp [DocumentFragment.Remove, Heap.setFrag, registerNodes_trace]

theorem Remove_frags (f : FragRef) (h : Heap) (r : FragRef) :
    (DocumentFragment.Remove f h).frags r =
      if r = f then { h.frags f with Nodes := [] } else h.frags r := by
  simp [DocumentFragment.Remove, Heap.setFrag, registerNodes_frags]

theorem Remove_docs (f : FragRef) (h : Heap) (r : DocRef) :
    (DocumentFragment.Remove f h).docs r =
      if r = (h.frags f).Document then
        { h.docs r with UnlinkedNodes := (h.docs r).UnlinkedNodes ++ (h.frags f).Nodes }
      else h.docs r := by
  by_cases hr : r = (h.frags f).Document <;>
    simp [DocumentFragment.Remove, Heap.setFrag, registerNodes_docs, hr]

theorem freeFragments_trace (fs : List FragRef) (h : Heap) :
    (freeFragments fs h).trace = h.trace ++ fs.map Call.Remove := by
  induction fs generalizing h with
  | nil => simp [freeFragments]
  | cons f fs ih => simp [freeFragments, ih, Remove_trace, Heap.emit]

theorem freeFragments_docs (d : DocRef) (fs : List FragRef) (h : Heap) :
    (freeFragments fs h).docs d =
      { h.docs d with
        UnlinkedNodes := (h.docs d).UnlinkedNodes ++ migrated d fs h.frags } := by
  induction fs generalizing h with
  | nil => simp [freeFragments, migrated]
  | cons f fs ih =>
    have hfr : (DocumentFragment.Remove f (h.emit (Call.Remove f))).frags =
        fun r => if r = f then { h.frags f with Nodes := [] } else h.frags r := by
      funext r
      simp [Remove_frags, Heap.emit]
    rw [freeFragments, ih, hfr, Remove_docs]
    by_cases hd : (h.frags f).Document = d
    · simp [migrated, Heap.emit, hd]
    · have hd2 : ¬ d = (h.frags f).Document := fun e => hd e.symm
      simp [migrated, Heap.emit, hd, hd2]

theorem freeUnlinkedNodes_trace (ps : List Pointer) (h : Heap) :
    (freeUnlinkedNodes ps h).trace = h.trace ++ ps.map Call.xmlFreeNode := by
  induction ps generalizing h with
  | nil => simp [freeUnlinkedNodes]
  | cons p ps ih => simp [freeUnlinkedNodes, ih, Heap.emit]

theorem freeUnlinkedNodes_docs (ps : List Pointer) (h : Heap) :
    (freeUnlinkedNodes ps h).docs = h.docs := by
  induction ps generalizing h with
  | nil => rfl
  | cons p ps ih => simp [freeUnlinkedNodes, ih, Heap.emit]

theorem Free_trace (d : DocRef) (h : Heap) :
    (XmlDocument.Free d h).trace =
      h.trace ++ ((h.docs d).fragments.map Call.Remove ++
        (registryAfterRemovals d h).map Call.xmlFreeNode ++
        [Call.XPathFree (h.docs d).XPathCtx, Call.xmlFreeDoc (h.docs d).Ptr]) := by
  simp [XmlDocument.Free, registryAfterRemovals, Heap.emit, freeUnlinkedNodes_trace,
    freeUnlinkedNodes_docs, freeFragments_trace, freeFragments_docs]

theorem FreeCalls_eq (d : DocRef) (h : Heap) :
    FreeCalls d h =
      (h.docs d).fragments.map Call.Remove ++
        (registryAfterRemovals d h).map Call.xmlFreeNode ++
        [Call.XPathFree (h.docs d).XPathCtx, Call.xmlFreeDoc (h.docs d).Ptr] := by
  simp [FreeCalls, Free_trace]

theorem registryAfterRemovals_eq (d : DocRef) (h : Heap) :
    registryAfterRemovals d h =
      (h.docs d).UnlinkedNodes ++ migrated d (h.docs d).fragments h.frags := by
  simp [registryAfterRemovals, freeFragments_docs]

theorem count_Remove_FreeCalls (d : DocRef) (h : Heap) (f : FragRef) :
    (FreeCalls d h).count (Call.Remove f) = (h.docs d).fragments.count f := by
  have h1 : ((h.docs d).fragments.map Call.Remove).count (Call.Remove f) =
      (h.docs d).fragments.count f :=
    List.count_map_of_injective _ Call.Remove (fun a b e => Call.Remove.inj e) f
  have h2 : ((registryAfterRemovals d h).map Call.xmlFreeNode).count (Call.Remove f) = 0 :=
    List.count_eq_zero.mpr (by simp)
  rw [FreeCalls_eq, List.count_append, List.count_append, h1, h2]
  simp

theorem count_xmlFreeNode_FreeCalls (d : DocRef) (h : Heap) (q : Pointer) :
    (FreeCalls d h).count (Call.xmlFreeNode q) = (registryAfterRemovals d h).count q := by
  have h1 : ((h.docs d).fragments.map Call.Remove).count (Call.xmlFreeNode q) = 0 :=
    List.count_eq_zero.mpr (by simp)
  have h2 : ((registryAfterRemovals d h).map Call.xmlFreeNode).count (Call.xmlFreeNode q) =
      (registryAfterRemovals d h).count q :=
    List.count_map_of_injective _ Call.xmlFreeNode (fun a b e => Call.xmlFreeNode.inj e) q
  rw [FreeCalls_eq, List.count_append, List.count_append, h1, h2]
  simp

/-- In a list `A ++ B` where `A` holds only `Remove` calls and `B` holds none, every
`Remove` call stands before every `xmlFreeNode` call. -/
theorem Remove_before_xmlFreeNode (A B : List Call)
    (hA : ∀ c ∈ A, ∃ f, c = Call.Remove f) (hB : ∀ c ∈ B, ∀ f, c ≠ Call.Remove f)
    (i j : Nat) (q : Pointer) (f : FragRef)
    (hi : (A ++ B)[i]? = some (Call.xmlFreeNode q))
    (hj : (A ++ B)[j]? = some (Call.Remove f)) : j < i := by
  have hiA : A.length ≤ i := by
    by_contra hlt
    rw [List.getElem?_append_left (Nat.lt_of_not_le hlt)] at hi
    obtain ⟨g, hg⟩ := hA _ (List.getElem?_mem hi)
    cases hg
  have hjA : j < A.length := by
    by_contra hge
    rw [List.getElem?_append_right (Nat.le_of_not_lt hge)] at hj
    exact hB _ (List.getElem?_mem hj) f rfl
  omega

/-- When the fragments of `fs` are distinct and all owned by `d`, the handles their
removals append are the fragments' handles, fragment after fragment. -/
theorem migrated_of_nodup (d : DocRef) (nodes : FragRef → List Pointer) (fs : List FragRef)
    (frags : FragRef → DocumentFragment) (hn : fs.Nodup)
    (ho : ∀ f ∈ fs, (frags f).Document = d) (hnodes : ∀ f ∈ fs, (frags f).Nodes = nodes f) :
    migrated d fs frags = (fs.map nodes).flatten := by
  induction fs generalizing frags with
  | nil => simp [migrated]
  | cons f fs ih =>
    have hf : f ∉ fs := (List.nodup_cons.mp hn).1
    have hne : ∀ g ∈ fs, ¬ g = f := fun g hg e => hf (e ▸ hg)
    rw [migrated, ih _ (List.nodup_cons.mp hn).2]
    · simp [ho f (List.mem_cons_self f fs), hnodes f (List.mem_cons_self f fs)]
    · intro g hg
      simp [hne g hg, ho g (List.mem_cons_of_mem f hg)]
    · intro g hg
      simp [hne g hg, hnodes g (List.mem_cons_of_mem f hg)]

/-! ## Teardown: `Free` -/

/-- C1: the calls `Free` makes on a document with fragment list `fs` and registry `us`
are exactly `Remove(f)` for each `f` of `fs` in list order, then `xmlFreeNode` on
every handle of the registry as it stands after those removals, in registry order
(that registry is `us` followed by the handles the removals appended: when the
fragments are distinct and owned by the document, the handles of each in turn), then
one `XPathCtx.Free`, then one `xmlFreeDoc` on the tree handle, which comes last. -/
theorem Free_call_sequence (d : DocRef) (h : Heap) :
    (XmlDocument.Free d h).trace = h.trace ++ FreeCalls d h ∧
    FreeCalls d h =
      (h.docs d).fragments.map Call.Remove ++
        (registryAfterRemovals d h).map Call.xmlFreeNode ++
        [Call.XPathFree (h.docs d).XPathCtx, Call.xmlFreeDoc (h.docs d).Ptr] ∧
    registryAfterRemovals d h =
      (h.docs d).UnlinkedNodes ++ migrated d (h.docs d).fragments h.frags ∧
    ((h.docs d).fragments.Nodup → (∀ f ∈ (h.docs d).fragments, (h.frags f).Document = d) →
      registryAfterRemovals d h = (h.docs d).UnlinkedNodes ++
        ((h.docs d).fragments.map (fun f => (h.frags f).Nodes)).flatten) ∧
    (FreeCalls d h).getLast? = some (Call.xmlFreeDoc (h.docs d).Ptr) ∧
    (FreeCalls d h).count (Call.XPathFree (h.docs d).XPathCtx) = 1 ∧
    (FreeCalls d h).count (Call.xmlFreeDoc (h.docs d).Ptr) = 1 := by
  refine ⟨?_, FreeCalls_eq d h, registryAfterRemovals_eq d h, ?_, ?_, ?_, ?_⟩
  · rw [FreeCalls_eq, Free_trace]
  · intro hn ho
    rw [registryAfterRemovals_eq,
      migrated_of_nodup d (fun f => (h.frags f).Nodes) _ h.frags hn ho (fun _ _ => rfl)]
  · rw [FreeCalls_eq]
    simp
  · have h1 : ((h.docs d).fragments.map Call.Remove).count
        (Call.XPathFree (h.docs d).XPathCtx) = 0 := List.count_eq_zero.mpr (by simp)
    have h2 : ((registryAfterRemovals d h).map Call.xmlFreeNode).count
        (Call.XPathFree (h.docs d).XPathCtx) = 0 := List.count_eq_zero.mpr (by simp)
    rw [FreeCalls_eq, List.count_append, List.count_append, h1, h2]
    simp
  · have h1 : ((h.docs d).fragments.map Call.Remove).count
        (Call.xmlFreeDoc (h.docs d).Ptr) = 0 := List.count_eq_zero.mpr (by simp)
    have h2 : ((registryAfterRemovals d h).map Call.xmlFreeNode).count
        (Call.xmlFreeDoc (h.docs d).Ptr) = 0 := List.count_eq_zero.mpr (by simp)
    rw [FreeCalls_eq, List.count_append, List.count_append, h1, h2]
    simp

/-- C2, as amended: for every document state reached from a new document by
`AddUnlinkedNode`, `BookkeepFragment` and fragment `Remove` calls, `Free` passes each
handle to `xmlFreeNode` exactly as many times as the handle occurs in the registry
once the removals of `Free` have run (so exactly once when it stands there once);
the registry the state had is a prefix of that registry; and no `xmlFreeNode` call
occurs before the last `Remove` call. -/
theorem Free_frees_each_registry_entry_once (nat : Native) (w : Heap) (d : DocRef)
    (p : Pointer) (contentLen : Nat) (inEncoding outEncoding : Slice) (ops : List Op) :
    let h := runOps d ops (w.setDoc d (NewDocument nat p contentLen inEncoding outEncoding).1)
    (∀ q, (FreeCalls d h).count (Call.xmlFreeNode q) = (registryAfterRemovals d h).count q) ∧
    (∀ q, (registryAfterRemovals d h).count q = 1 →
      (FreeCalls d h).count (Call.xmlFreeNode q) = 1) ∧
    (h.docs d).UnlinkedNodes <+: registryAfterRemovals d h ∧
    (∀ q, q ∈ (h.docs d).UnlinkedNodes → 1 ≤ (FreeCalls d h).count (Call.xmlFreeNode q)) ∧
    (∀ (i j : Nat) (q : Pointer) (f : FragRef), (FreeCalls d h)[i]? = some (Call.xmlFreeNode q) →
      (FreeCalls d h)[j]? = some (Call.Remove f) → j < i) := by
  intro h
  have hpre : (h.docs d).UnlinkedNodes <+: registryAfterRemovals d h := by
    rw [registryAfterRemovals_eq]
    exact List.prefix_append _ _
  refine ⟨count_xmlFreeNode_FreeCalls d h, ?_, hpre, ?_, ?_⟩
  · intro q hq
    rw [count_xmlFreeNode_FreeCalls, hq]
  · intro q hq
    rw [count_xmlFreeNode_FreeCalls]
    exact List.count_pos_iff.mpr (hpre.subset hq)
  · intro i j q f hi hj
    rw [FreeCalls_eq, List.append_assoc] at hi hj
    refine Remove_before_xmlFreeNode _ _ ?_ ?_ i j q f hi hj
    · intro c hc
      obtain ⟨g, _, hg⟩ := List.mem_map.mp hc
      exact ⟨g, hg.symm⟩
    · intro c hc g hcg
      subst hcg
      simp at hc

/-- C2, counterexample: on a new document, registering handle `7` twice reaches a
state whose registry holds `7`, and `Free` passes `7` to `xmlFreeNode` twice. -/
theorem Free_frees_duplicate_registration_twice :
    7 ∈ ((runOps 0 [Op.AddUnlinkedNode 7, Op.AddUnlinkedNode 7]
      (Heap.sample.setDoc 0 (NewDocument (Native.sample 1 1 none) 1 0 Slice.nil Slice.nil).1)).docs 0).UnlinkedNodes ∧
    FreeCalls 0 (runOps 0 [Op.AddUnlinkedNode 7, Op.AddUnlinkedNode 7]
      (Heap.sample.setDoc 0 (NewDocument (Native.sample 1 1 none) 1 0 Slice.nil Slice.nil).1)) =
      [Call.xmlFreeNode 7, Call.xmlFreeNode 7, Call.XPathFree (NewXPath 1), Call.xmlFreeDoc 1] ∧
    (FreeCalls 0 (runOps 0 [Op.AddUnlinkedNode 7, Op.AddUnlinkedNode 7]
      (Heap.sample.setDoc 0 (NewDocument (Native.sample 1 1 none) 1 0 Slice.nil Slice.nil).1))).count
      (Call.xmlFreeNode 7) ≠ 1 := by
  decide

/-! ## Bookkeeping: the registry and the fragment list -/

/-- C5: `AddUnlinkedNode(h)` makes the registry the old registry with `h` appended
(one entry longer, the earlier entries unchanged in value and position), checks for
no duplicate (the number of entries for `h` grows by one, to at least two when `h`
was already registered), and leaves the tree handle, node, encodings, type, input
length, XPath context and fragment list unchanged; through a reference it changes
that document only. -/
theorem AddUnlinkedNode_appends (document : XmlDocument) (h : Pointer) (hp : Heap)
    (d : DocRef) :
    (document.AddUnlinkedNode h).UnlinkedNodes = document.UnlinkedNodes ++ [h] ∧
    (document.AddUnlinkedNode h).UnlinkedNodes.length = document.UnlinkedNodes.length + 1 ∧
    (document.AddUnlinkedNode h).UnlinkedNodes.take document.UnlinkedNodes.length =
      document.UnlinkedNodes ∧
    (document.AddUnlinkedNode h).UnlinkedNodes.count h = document.UnlinkedNodes.count h + 1 ∧
    (h ∈ document.UnlinkedNodes → 2 ≤ (document.AddUnlinkedNode h).UnlinkedNodes.count h) ∧
    (document.AddUnlinkedNode h).Ptr = document.Ptr ∧
    (document.AddUnlinkedNode h).Node = document.Node ∧
    (document.AddUnlinkedNode h).InEncoding = document.InEncoding ∧
    (document.AddUnlinkedNode h).OutEncoding = document.OutEncoding ∧
    (document.AddUnlinkedNode h).Typ = document.Typ ∧
    (document.AddUnlinkedNode h).InputLen = document.InputLen ∧
    (document.AddUnlinkedNode h).XPathCtx = document.XPathCtx ∧
    (document.AddUnlinkedNode h).fragments = document.fragments ∧
    (hp.AddUnlinkedNode d h).docs d = (hp.docs d).AddUnlinkedNode h ∧
    (∀ r, r ≠ d → (hp.AddUnlinkedNode d h).docs r = hp.docs r) ∧
    (hp.AddUnlinkedNode d h).frags = hp.frags ∧
    (hp.AddUnlinkedNode d h).trace = hp.trace := by
  refine ⟨rfl, by simp [XmlDocument.AddUnlinkedNode], ?_, ?_, ?_, rfl, rfl, rfl, rfl, rfl,
    rfl, rfl, rfl, ?_, ?_, rfl, rfl⟩
  · simp [XmlDocument.AddUnlinkedNode]
  · simp [XmlDocument.AddUnlinkedNode]
  · intro hm
    have := List.count_pos_iff.mpr hm
    simp only [XmlDocument.AddUnlinkedNode, List.count_append, List.count_singleton_self]
    omega
  · simp [Heap.AddUnlinkedNode, Heap.setDoc]
  · intro r hr
    simp [Heap.AddUnlinkedNode, Heap.setDoc, hr]

/-- C8: `BookkeepFragment(f)` appends `f` at the end of the fragment list, keeping
the earlier entries in place and the registry (and every other field) unchanged; it
is not idempotent: bookkeeping `f` twice leaves two more entries for `f`, and `Free`
then calls `Remove` on `f` once per entry, so at least twice. -/
theorem BookkeepFragment_not_idempotent (document : XmlDocument) (f : FragRef) (h : Heap)
    (d : DocRef) :
    (document.BookkeepFragment f).fragments = document.fragments ++ [f] ∧
    (document.BookkeepFragment f).fragments.take document.fragments.length =
      document.fragments ∧
    (document.BookkeepFragment f).UnlinkedNodes = document.UnlinkedNodes ∧
    ((document.BookkeepFragment f).BookkeepFragment f).fragments =
      document.fragments ++ [f, f] ∧
    ((document.BookkeepFragment f).BookkeepFragment f).fragments.count f =
      document.fragments.count f + 2 ∧
    (h.BookkeepFragment d f).docs d = (h.docs d).BookkeepFragment f ∧
    (FreeCalls d ((h.BookkeepFragment d f).BookkeepFragment d f)).count (Call.Remove f) =
      (h.docs d).fragments.count f + 2 := by
  refine ⟨rfl, ?_, rfl, ?_, ?_, ?_, ?_⟩
  · simp [XmlDocument.BookkeepFragment]
  · simp [XmlDocument.BookkeepFragment]
  · simp [XmlDocument.BookkeepFragment]
  · simp [Heap.BookkeepFragment, Heap.setDoc]
  · rw [count_Remove_FreeCalls]
    simp [Heap.BookkeepFragment, Heap.setDoc, XmlDocument.BookkeepFragment]

/-! ## Creation: `NewDocument`, `CreateEmptyDocument`, `Parse` -/

/-- The bytes of `DefaultEncodingBytes` are the characters of `DefaultEncoding`. -/
theorem DefaultEncodingBytes_eq :
    DefaultEncoding.toList.map (fun c => c.toUInt8) = DefaultEncodingBytes := by
  decide

theorem terminated_of_empty (nat : Native) (m : Mem) (x : Slice) (hx : x.len = 0) :
    terminated nat m x = (m, x) := by
  simp [terminated, hx]

theorem terminated_len (nat : Native) (m : Mem) (x : Slice) (hx : 0 < x.len) :
    (terminated nat m x).2.len = x.len + 1 := by
  by_cases hcap : x.len < x.cap <;> simp [terminated, append, hx, hcap]

theorem terminated_next (nat : Native) (m : Mem) (x : Slice) :
    m.next ≤ (terminated nat m x).1.next := by
  by_cases hx : 0 < x.len <;> by_cases hcap : x.len < x.cap <;>
    simp [terminated, append, hx, hcap]

theorem terminated_arr_lt (nat : Native) (m : Mem) (x : Slice) (ha : x.arr < m.next) :
    (terminated nat m x).2.arr < (terminated nat m x).1.next := by
  by_cases hx : 0 < x.len <;> by_cases hcap : x.len < x.cap <;>
    simp [terminated, append, hx, hcap, ha]

/-- An allocated array keeps its bytes through `append(w, 0)`, but for the byte an
in-place append writes, which becomes `0`. -/
theorem terminated_bytes (nat : Native) (m : Mem) (w : Slice) (a i : Nat) (ha : a < m.next) :
    (terminated nat m w).1.bytes a i = m.bytes a i ∨
      ((terminated nat m w).1.bytes a i = 0 ∧ 0 < w.len ∧ w.len < w.cap ∧ a = w.arr ∧
        i = w.off + w.len) := by
  by_cases hx : 0 < w.len
  · by_cases hcap : w.len < w.cap
    · by_cases hit : a = w.arr ∧ i = w.off + w.len
      · right
        simp [terminated, append, hx, hcap, hit]
      · left
        simp [terminated, append, hx, hcap, hit]
    · left
      simp [terminated, append, hx, hcap, Nat.ne_of_lt ha]
  · left
    simp [terminated, hx]

/-- After `x = append(x, 0)` the slice `x` holds its former bytes and then `0`. -/
theorem terminated_read_self (nat : Native) (m : Mem) (x : Slice) (hx : 0 < x.len) :
    (terminated nat m x).1.read (terminated nat m x).2 = m.read x ++ [0] := by
  by_cases hcap : x.len < x.cap
  · simp only [terminated, append, hx, hcap, Mem.read, gt_iff_lt, if_true, List.range_succ,
      List.map_append, List.map_cons, List.map_nil]
    congr 1
    · apply List.map_congr_left
      intro i hi
      have hlt : i < x.len := List.mem_range.mp hi
      have hne : ¬ (x.off + i = x.off + x.len) := by omega
      simp [hne]
  · simp only [terminated, append, hx, hcap, Mem.read, gt_iff_lt, if_true, if_false,
      List.range_succ, List.map_append, List.map_cons, List.map_nil]
    congr 1
    · apply List.map_congr_left
      intro i hi
      have hlt : i < x.len := List.mem_range.mp hi
      simp [hlt]
    all_goals simp

/-- The byte that `x = append(x, 0)` appended is `0`. -/
theorem terminated_last (nat : Native) (m : Mem) (x : Slice) (hx : 0 < x.len) :
    (terminated nat m x).1.bytes (terminated nat m x).2.arr
      ((terminated nat m x).2.off + x.len) = 0 := by
  by_cases hcap : x.len < x.cap <;> simp [terminated, append, hx, hcap]

/-- The slice `x = append(x, 0)` yields: `x` one byte longer in the same place, or a
slice at the start of the newly allocated array. -/
theorem terminated_shape (nat : Native) (m : Mem) (x : Slice) (hx : 0 < x.len) :
    ((terminated nat m x).2.arr = x.arr ∧ (terminated nat m x).2.off = x.off) ∨
      (terminated nat m x).2.arr = m.next := by
  by_cases hcap : x.len < x.cap <;> simp [terminated, append, hx, hcap]

/-- The bytes of an allocated slice `s` are kept by `append(w, 0)` unless it writes
in place inside `s`. -/
theorem terminated_frame (nat : Native) (m : Mem) (w s : Slice) (hs : s.arr < m.next)
    (hw : ¬ writesInto w s) : (terminated nat m w).1.read s = m.read s := by
  apply List.map_congr_left
  intro i hi
  have hlt : i < s.len := List.mem_range.mp hi
  rcases terminated_bytes nat m w s.arr (s.off + i) hs with h | ⟨_, h1, h2, h3, h4⟩
  · exact h
  · exact absurd ⟨h1, h2, h3.symm, by omega, by omega⟩ hw

/-- With non-empty content `Parse` is its first branch. -/
theorem Parse_nonempty (nat : Native) (m : Mem) (content inEncoding url : Slice)
    (options : Int) (outEncoding : Slice) (hc : 0 < content.len) :
    Parse nat m content inEncoding url options outEncoding =
      if nat.xmlParse
          (terminated nat (terminated nat (terminated nat m url).1 inEncoding).1 outEncoding).1
          content.ptr (CInt content.len)
          (if 0 < url.len then some (terminated nat m url).2.ptr else none)
          (if 0 < inEncoding.len then
            some (terminated nat (terminated nat m url).1 inEncoding).2.ptr else none)
          (CInt options) = 0 then
        { doc := none, err := some ERR_FAILED_TO_PARSE_XML,
          calls := [Call.xmlParse content.ptr (CInt content.len)
            (if 0 < url.len then some (terminated nat m url).2.ptr else none)
            (if 0 < inEncoding.len then
              some (terminated nat (terminated nat m url).1 inEncoding).2.ptr else none)
            (CInt options)],
          mem := (terminated nat (terminated nat (terminated nat m url).1 inEncoding).1
            outEncoding).1 }
      else
        { doc := some (NewDocument nat
            (nat.xmlParse
              (terminated nat (terminated nat (terminated nat m url).1 inEncoding).1
                outEncoding).1
              content.ptr (CInt content.len)
              (if 0 < url.len then some (terminated nat m url).2.ptr else none)
              (if 0 < inEncoding.len then
                some (terminated nat (terminated nat m url).1 inEncoding).2.ptr else none)
              (CInt options))
            content.len
            (terminated nat (terminated nat m url).1 inEncoding).2
            (terminated nat (terminated nat (terminated nat m url).1 inEncoding).1
              outEncoding).2).1,
          err := none,
          calls := [Call.xmlParse content.ptr (CInt content.len)
              (if 0 < url.len then some (terminated nat m url).2.ptr else none)
              (if 0 < inEncoding.len then
                some (terminated nat (terminated nat m url).1 inEncoding).2.ptr else none)
              (CInt options),
            Call.NewXPath (nat.xmlParse
              (terminated nat (terminated nat (terminated nat m url).1 inEncoding).1
                outEncoding).1
              content.ptr (CInt content.len)
              (if 0 < url.len then some (terminated nat m url).2.ptr else none)
              (if 0 < inEncoding.len then
                some (terminated nat (terminated nat m url).1 inEncoding).2.ptr else none)
              (CInt options))],
          mem := (terminated nat (terminated nat (terminated nat m url).1 inEncoding).1
            outEncoding).1 } := by
  unfold Parse
  exact if_pos hc

/-- With empty content `Parse` is its second branch. -/
theorem Parse_empty (nat : Native) (m : Mem) (content inEncoding url : Slice)
    (options : Int) (outEncoding : Slice) (hc : content.len = 0) :
    Parse nat m content inEncoding url options outEncoding =
      { doc := some (CreateEmptyDocument nat inEncoding outEncoding).1, err := none,
        calls := [Call.newEmptyXmlDoc, Call.NewXPath nat.newEmptyXmlDoc], mem := m } := by
  simp [Parse, hc, CreateEmptyDocument, NewDocument]

/-- The memory `Parse` leaves: the one after its three appends, or the one it was
given when the content is empty. -/
theorem Parse_mem (nat : Native) (m : Mem) (content inEncoding url : Slice)
    (options : Int) (outEncoding : Slice) :
    (Parse nat m content inEncoding url options outEncoding).mem =
      if 0 < content.len then
        (terminated nat (terminated nat (terminated nat m url).1 inEncoding).1 outEncoding).1
      else m := by
  by_cases hc : 0 < content.len
  · rw [Parse_nonempty nat m content inEncoding url options outEncoding hc,
      apply_ite ParseResult.mem, if_pos hc]
    simp
  · rw [Parse_empty nat m content inEncoding url options outEncoding (by omega), if_neg hc]

/-- Every document `Parse` returns was built by `NewDocument` with the content
length, over the handle and with the encoding slices `Parse` passed on. -/
theorem Parse_doc_eq_NewDocument (nat : Native) (m : Mem) (content inEncoding url : Slice)
    (options : Int) (outEncoding : Slice) (doc : XmlDocument)
    (hd : (Parse nat m content inEncoding url options outEncoding).doc = some doc) :
    doc = (NewDocument nat doc.Ptr content.len
      (if 0 < content.len then (terminated nat (terminated nat m url).1 inEncoding).2
        else inEncoding)
      (if 0 < content.len then
        (terminated nat (terminated nat (terminated nat m url).1 inEncoding).1 outEncoding).2
        else outEncoding)).1 := by
  by_cases hc : 0 < content.len
  · rw [Parse_nonempty nat m content inEncoding url options outEncoding hc] at hd
    generalize nat.xmlParse _ _ _ _ _ _ = q at hd
    by_cases h0 : q = 0
    · rw [if_pos h0] at hd
      simp at hd
    · rw [if_neg h0] at hd
      have hd2 := Option.some.inj hd
      subst hd2
      simp [NewDocument, hc]
  · have hc0 : content.len = 0 := by omega
    rw [Parse_empty nat m content inEncoding url options outEncoding hc0] at hd
    have hd2 := Option.some.inj hd
    subst hd2
    simp [CreateEmptyDocument, NewDocument, hc0]

/-- C3: for non-empty content, `Parse` returns `ERR_FAILED_TO_PARSE_XML` exactly
when `xmlParse` returns a nil tree handle; then the returned document is nil and the
only call made is the one to `xmlParse` (no XPath context is created); otherwise the
error is nil and the returned document holds the handle `xmlParse` returned. -/
theorem Parse_error_iff_nil_tree (nat : Native) (m : Mem) (content inEncoding url : Slice)
    (options : Int) (outEncoding : Slice) (hc : 0 < content.len) :
    let url1 := terminated nat m url
    let inEncoding1 := terminated nat url1.1 inEncoding
    let outEncoding1 := terminated nat inEncoding1.1 outEncoding
    let urlPtr : Option BytePtr := if 0 < url.len then some url1.2.ptr else none
    let encodingPtr : Option BytePtr :=
      if 0 < inEncoding.len then some inEncoding1.2.ptr else none
    let docPtr :=
      nat.xmlParse outEncoding1.1 content.ptr (CInt content.len) urlPtr encodingPtr (CInt options)
    let r := Parse nat m content inEncoding url options outEncoding
    (r.err = some ERR_FAILED_TO_PARSE_XML ↔ docPtr = 0) ∧
    (r.err = none ↔ docPtr ≠ 0) ∧
    (docPtr = 0 → r.doc = none ∧
      r.calls = [Call.xmlParse content.ptr (CInt content.len) urlPtr encodingPtr (CInt options)]) ∧
    (docPtr ≠ 0 → ∃ doc, r.doc = some doc ∧ doc.DocPtr = docPtr ∧ doc.Ptr = docPtr) := by
  intro url1 inEncoding1 outEncoding1 urlPtr encodingPtr docPtr r
  have hr := Parse_nonempty nat m content inEncoding url options outEncoding hc
  by_cases h0 : docPtr = 0
  · have h0e := h0
    simp only [docPtr, urlPtr, encodingPtr, outEncoding1, inEncoding1, url1] at h0e
    rw [if_pos h0e] at hr
    simp [r, hr, h0, urlPtr, encodingPtr, inEncoding1, url1]
  · have h0e := h0
    simp only [docPtr, urlPtr, encodingPtr, outEncoding1, inEncoding1, url1] at h0e
    rw [if_neg h0e] at hr
    simp [r, hr, h0, NewDocument, XmlDocument.DocPtr, docPtr, urlPtr, encodingPtr,
      outEncoding1, inEncoding1, url1]

/-- C3, witness: a native parser that returns nil on the content `<a/>`. -/
theorem Parse_error_iff_nil_tree_witness :
    0 < ({ arr := 0, off := 0, len := 4, cap := 4 } : Slice).len ∧
    (Parse (Native.sample 0 1 none) (Mem.ofArrays [[60, 97, 47, 62]])
      { arr := 0, off := 0, len := 4, cap := 4 } Slice.nil Slice.nil 0 Slice.nil).err =
      some ERR_FAILED_TO_PARSE_XML ∧
    (Parse (Native.sample 0 1 none) (Mem.ofArrays [[60, 97, 47, 62]])
      { arr := 0, off := 0, len := 4, cap := 4 } Slice.nil Slice.nil 0 Slice.nil).doc = none :=
  ⟨by decide,
   (Parse_error_iff_nil_tree (Native.sample 0 1 none) (Mem.ofArrays [[60, 97, 47, 62]])
      { arr := 0, off := 0, len := 4, cap := 4 } Slice.nil Slice.nil 0 Slice.nil
      (by decide)).1.mpr rfl,
   ((Parse_error_iff_nil_tree (Native.sample 0 1 none) (Mem.ofArrays [[60, 97, 47, 62]])
      { arr := 0, off := 0, len := 4, cap := 4 } Slice.nil Slice.nil 0 Slice.nil
      (by decide)).2.2.1 rfl).1⟩

/-- C4: with empty content, whatever the encodings, url and options, `Parse` returns
a document and a nil error; the document is the one `CreateEmptyDocument` builds,
that is `NewDocument` over the handle of `newEmptyXmlDoc` with `InputLen = 0`; the
calls made are `newEmptyXmlDoc` and the creation of the XPath context, and `xmlParse`
is not among them. -/
theorem Parse_empty_content (nat : Native) (m : Mem) (content inEncoding url : Slice)
    (options : Int) (outEncoding : Slice) (hc : content.len = 0) :
    let r := Parse nat m content inEncoding url options outEncoding
    r.doc = some (CreateEmptyDocument nat inEncoding outEncoding).1 ∧
    r.err = none ∧
    (CreateEmptyDocument nat inEncoding outEncoding).1 =
      (NewDocument nat nat.newEmptyXmlDoc 0 inEncoding outEncoding).1 ∧
    (CreateEmptyDocument nat inEncoding outEncoding).1.InputLen = 0 ∧
    (CreateEmptyDocument nat inEncoding outEncoding).1.Ptr = nat.newEmptyXmlDoc ∧
    r.calls = [Call.newEmptyXmlDoc, Call.NewXPath nat.newEmptyXmlDoc] ∧
    (∀ c l u e o, Call.xmlParse c l u e o ∉ r.calls) := by
  intro r
  have hr := Parse_empty nat m content inEncoding url options outEncoding hc
  simp [r, hr, CreateEmptyDocument, NewDocument]

/-- C4, witness: empty content with encodings, a url and options given. -/
theorem Parse_empty_content_witness :
    Slice.nil.len = 0 ∧
    (Parse (Native.sample 0 5 none) (Mem.ofArrays [[117], [47]]) Slice.nil
      { arr := 0, off := 0, len := 1, cap := 1 } { arr := 1, off := 0, len := 1, cap := 1 } 1
      { arr := 0, off := 0, len := 1, cap := 1 }).doc =
      some (CreateEmptyDocument (Native.sample 0 5 none)
        { arr := 0, off := 0, len := 1, cap := 1 } { arr := 0, off := 0, len := 1, cap := 1 }).1 ∧
    (Parse (Native.sample 0 5 none) (Mem.ofArrays [[117], [47]]) Slice.nil
      { arr := 0, off := 0, len := 1, cap := 1 } { arr := 1, off := 0, len := 1, cap := 1 } 1
      { arr := 0, off := 0, len := 1, cap := 1 }).err = none :=
  ⟨rfl,
   (Parse_empty_content (Native.sample 0 5 none) (Mem.ofArrays [[117], [47]]) Slice.nil
      { arr := 0, off := 0, len := 1, cap := 1 } { arr := 1, off := 0, len := 1, cap := 1 } 1
      { arr := 0, off := 0, len := 1, cap := 1 } rfl).1,
   (Parse_empty_content (Native.sample 0 5 none) (Mem.ofArrays [[117], [47]]) Slice.nil
      { arr := 0, off := 0, len := 1, cap := 1 } { arr := 1, off := 0, len := 1, cap := 1 } 1
      { arr := 0, off := 0, len := 1, cap := 1 } rfl).2.1⟩

/-- C6: a document returned by `NewDocument` has an empty registry and an empty
fragment list, an XPath context created over the tree handle the document holds,
`InputLen` equal to the content length passed in, and the encodings passed in; so has
the document `CreateEmptyDocument` returns (with length `0`), and so has every
document `Parse` returns (with the length of the content), being built by
`NewDocument`. -/
theorem NewDocument_initial_state (nat : Native) (p : Pointer) (contentLen : Nat) (m : Mem)
    (inEncoding outEncoding content url : Slice) (options : Int) :
    ((NewDocument nat p contentLen inEncoding outEncoding).1.UnlinkedNodes = [] ∧
      (NewDocument nat p contentLen inEncoding outEncoding).1.fragments = [] ∧
      (NewDocument nat p contentLen inEncoding outEncoding).1.Ptr = p ∧
      (NewDocument nat p contentLen inEncoding outEncoding).1.XPathCtx =
        NewXPath (NewDocument nat p contentLen inEncoding outEncoding).1.Ptr ∧
      (NewDocument nat p contentLen inEncoding outEncoding).2 = [Call.NewXPath p] ∧
      (NewDocument nat p contentLen inEncoding outEncoding).1.InputLen = contentLen ∧
      (NewDocument nat p contentLen inEncoding outEncoding).1.InputEncoding = inEncoding ∧
      (NewDocument nat p contentLen inEncoding outEncoding).1.OutputEncoding = outEncoding) ∧
    ((CreateEmptyDocument nat inEncoding outEncoding).1.UnlinkedNodes = [] ∧
      (CreateEmptyDocument nat inEncoding outEncoding).1.fragments = [] ∧
      (CreateEmptyDocument nat inEncoding outEncoding).1.XPathCtx =
        NewXPath (CreateEmptyDocument nat inEncoding outEncoding).1.Ptr ∧
      (CreateEmptyDocument nat inEncoding outEncoding).1.InputLen = 0 ∧
      (CreateEmptyDocument nat inEncoding outEncoding).1.InputEncoding = inEncoding ∧
      (CreateEmptyDocument nat inEncoding outEncoding).1.OutputEncoding = outEncoding) ∧
    (∀ doc, (Parse nat m content inEncoding url options outEncoding).doc = some doc →
      doc.UnlinkedNodes = [] ∧ doc.fragments = [] ∧
      doc.XPathCtx = NewXPath doc.Ptr ∧
      doc.InputLen = content.len ∧
      ∃ inEncoding1 outEncoding1,
        doc = (NewDocument nat doc.Ptr content.len inEncoding1 outEncoding1).1 ∧
        doc.InputEncoding = inEncoding1 ∧ doc.OutputEncoding = outEncoding1) := by
  refine ⟨⟨rfl, rfl, rfl, rfl, rfl, rfl, rfl, rfl⟩, ⟨rfl, rfl, rfl, rfl, rfl, rfl⟩, ?_⟩
  intro doc hd
  have h := Parse_doc_eq_NewDocument nat m content inEncoding url options outEncoding doc hd
  refine ⟨?_, ?_, ?_, ?_, _, _, h, ?_, ?_⟩
  · rw [h]; rfl
  · rw [h]; rfl
  · rw [h]; rfl
  · rw [h]; rfl
  · rw [h]; rfl
  · rw [h]; rfl

/-- C6, witness: the document parsed from `<a/>` by a parser returning handle `3`,
with input and output encoding `u`, each a slice without spare capacity. -/
theorem NewDocument_initial_state_witness :
    (Parse (Native.sample 3 1 none) (Mem.ofArrays [[60, 97, 47, 62], [117]])
      { arr := 0, off := 0, len := 4, cap := 4 } { arr := 1, off := 0, len := 1, cap := 1 }
      Slice.nil 0 { arr := 1, off := 0, len := 1, cap := 1 }).doc =
      some (NewDocument (Native.sample 3 1 none) 3 4 { arr := 2, off := 0, len := 2, cap := 4 }
        { arr := 3, off := 0, len := 2, cap := 4 }).1 ∧
    (NewDocument (Native.sample 3 1 none) 3 4 { arr := 2, off := 0, len := 2, cap := 4 }
      { arr := 3, off := 0, len := 2, cap := 4 }).1.UnlinkedNodes = [] ∧
    (NewDocument (Native.sample 3 1 none) 3 4 { arr := 2, off := 0, len := 2, cap := 4 }
      { arr := 3, off := 0, len := 2, cap := 4 }).1.fragments = [] ∧
    (NewDocument (Native.sample 3 1 none) 3 4 { arr := 2, off := 0, len := 2, cap := 4 }
      { arr := 3, off := 0, len := 2, cap := 4 }).1.XPathCtx = NewXPath 3 ∧
    (NewDocument (Native.sample 3 1 none) 3 4 { arr := 2, off := 0, len := 2, cap := 4 }
      { arr := 3, off := 0, len := 2, cap := 4 }).1.InputLen = 4 :=
  have h := (NewDocument_initial_state (Native.sample 3 1 none) 3 4
    (Mem.ofArrays [[60, 97, 47, 62], [117]]) { arr := 1, off := 0, len := 1, cap := 1 }
    { arr := 1, off := 0, len := 1, cap := 1 } { arr := 0, off := 0, len := 4, cap := 4 }
    Slice.nil 0).2.2
    (NewDocument (Native.sample 3 1 none) 3 4 { arr := 2, off := 0, len := 2, cap := 4 }
      { arr := 3, off := 0, len := 2, cap := 4 }).1
    (by decide)
  ⟨by decide, h.1, h.2.1, h.2.2.1, h.2.2.2.1⟩

/-! ## Encodings -/

/-- C9, counterexample: `Parse` of `<a/>` with no input and no output encoding succeeds
and the document's `InputEncoding()` and `OutputEncoding()` hold no bytes, not the
bytes of `DefaultEncoding`; so it is for empty content. -/
theorem Parse_does_not_default_encoding :
    (Parse (Native.sample 3 1 none) (Mem.ofArrays [[60, 97, 47, 62]])
      { arr := 0, off := 0, len := 4, cap := 4 } Slice.nil Slice.nil 0 Slice.nil).doc.map
      (fun doc => (Parse (Native.sample 3 1 none) (Mem.ofArrays [[60, 97, 47, 62]])
        { arr := 0, off := 0, len := 4, cap := 4 } Slice.nil Slice.nil 0 Slice.nil).mem.read
        doc.InputEncoding) = some [] ∧
    (Parse (Native.sample 3 1 none) (Mem.ofArrays [[60, 97, 47, 62]])
      { arr := 0, off := 0, len := 4, cap := 4 } Slice.nil Slice.nil 0 Slice.nil).doc.map
      (fun doc => (Parse (Native.sample 3 1 none) (Mem.ofArrays [[60, 97, 47, 62]])
        { arr := 0, off := 0, len := 4, cap := 4 } Slice.nil Slice.nil 0 Slice.nil).mem.read
        doc.OutputEncoding) = some [] ∧
    (Parse (Native.sample 3 1 none) (Mem.ofArrays []) Slice.nil Slice.nil Slice.nil 0
      Slice.nil).doc.map XmlDocument.InputEncoding = some Slice.nil ∧
    (Parse (Native.sample 3 1 none) (Mem.ofArrays []) Slice.nil Slice.nil Slice.nil 0
      Slice.nil).doc.map XmlDocument.OutputEncoding = some Slice.nil ∧
    (Mem.ofArrays []).read Slice.nil = [] ∧
    ([] : Bytes) ≠ DefaultEncodingBytes := by
  decide

/-- C9, as amended: when the caller gives `Parse` an empty input or output encoding,
no default is put in its place: the document's `InputEncoding()` or
`OutputEncoding()` is the empty slice given, which holds no bytes and so is not
`DefaultEncoding`, and with an empty input encoding `xmlParse` receives a nil
encoding pointer. -/
theorem Parse_keeps_empty_encoding (nat : Native) (m : Mem) (content inEncoding url : Slice)
    (options : Int) (outEncoding : Slice) (doc : XmlDocument)
    (hd : (Parse nat m content inEncoding url options outEncoding).doc = some doc) :
    (inEncoding.len = 0 →
      doc.InputEncoding = inEncoding ∧
      ∀ m1 : Mem, m1.read doc.InputEncoding = [] ∧
        m1.read doc.InputEncoding ≠ DefaultEncodingBytes) ∧
    (outEncoding.len = 0 →
      doc.OutputEncoding = outEncoding ∧
      ∀ m1 : Mem, m1.read doc.OutputEncoding = [] ∧
        m1.read doc.OutputEncoding ≠ DefaultEncodingBytes) ∧
    (inEncoding.len = 0 → ∀ c l u e o,
      Call.xmlParse c l u e o ∈
        (Parse nat m content inEncoding url options outEncoding).calls → e = none) := by
  have h := Parse_doc_eq_NewDocument nat m content inEncoding url options outEncoding doc hd
  have hne : ([] : Bytes) ≠ DefaultEncodingBytes := by decide
  have hread : ∀ (m1 : Mem) (s : Slice), s.len = 0 → m1.read s = [] := by
    intro m1 s hs
    simp [Mem.read, hs]
  refine ⟨?_, ?_, ?_⟩
  · intro hi
    have h1 : doc.InputEncoding = inEncoding := by
      rw [h]
      by_cases hc : 0 < content.len <;>
        simp [NewDocument, XmlDocument.InputEncoding, hc, terminated_of_empty, hi]
    refine ⟨h1, fun m1 => ?_⟩
    have h2 := hread m1 doc.InputEncoding (by rw [h1]; exact hi)
    exact ⟨h2, by rw [h2]; exact hne⟩
  · intro ho
    have h1 : doc.OutputEncoding = outEncoding := by
      rw [h]
      by_cases hc : 0 < content.len <;>
        simp [NewDocument, XmlDocument.OutputEncoding, hc, terminated_of_empty, ho]
    refine ⟨h1, fun m1 => ?_⟩
    have h2 := hread m1 doc.OutputEncoding (by rw [h1]; exact ho)
    exact ⟨h2, by rw [h2]; exact hne⟩
  · intro hi c l u e o hm
    by_cases hc : 0 < content.len
    · rw [Parse_nonempty nat m content inEncoding url options outEncoding hc,
        apply_ite ParseResult.calls] at hm
      have hi0 : ¬ 0 < inEncoding.len := by omega
      simp only [hi0, if_false] at hm
      generalize nat.xmlParse _ _ _ _ _ _ = q at hm
      by_cases h0 : q = 0
      · rw [if_pos h0] at hm
        simp at hm
        exact hm.2.2.2.1
      · rw [if_neg h0] at hm
        simp at hm
        exact hm.2.2.2.1
    · rw [Parse_empty nat m content inEncoding url options outEncoding (by omega)] at hm
      simp at hm

/-- C9, witness: `<a/>` parsed with no encodings. -/
theorem Parse_keeps_empty_encoding_witness :
    (Parse (Native.sample 3 1 none) (Mem.ofArrays [[60, 97, 47, 62]])
      { arr := 0, off := 0, len := 4, cap := 4 } Slice.nil Slice.nil 0 Slice.nil).doc =
      some (NewDocument (Native.sample 3 1 none) 3 4 Slice.nil Slice.nil).1 ∧
    (NewDocument (Native.sample 3 1 none) 3 4 Slice.nil Slice.nil).1.InputEncoding =
      Slice.nil ∧
    (NewDocument (Native.sample 3 1 none) 3 4 Slice.nil Slice.nil).1.OutputEncoding =
      Slice.nil :=
  have h := Parse_keeps_empty_encoding (Native.sample 3 1 none)
    (Mem.ofArrays [[60, 97, 47, 62]]) { arr := 0, off := 0, len := 4, cap := 4 } Slice.nil
    Slice.nil 0 Slice.nil (NewDocument (Native.sample 3 1 none) 3 4 Slice.nil Slice.nil).1
    (by decide)
  ⟨by decide, (h.1 rfl).1, (h.2.1 rfl).1⟩

/-- The input encoding `Parse` stores holds the given bytes and then `0`, when the
in-place appends of `url` and of `outEncoding` do not write inside it. -/
theorem Parse_reads_InEncoding (nat : Native) (m : Mem) (inEncoding url outEncoding : Slice)
    (hpos : 0 < inEncoding.len) (hin : inEncoding.arr < m.next)
    (hout : outEncoding.arr < m.next) (h1 : ¬ writesInto url inEncoding)
    (h2 : ¬ writesInto outEncoding inEncoding) :
    (terminated nat (terminated nat (terminated nat m url).1 inEncoding).1 outEncoding).1.read
      (terminated nat (terminated nat m url).1 inEncoding).2 = m.read inEncoding ++ [0] := by
  have hn1 : m.next ≤ (terminated nat m url).1.next := terminated_next nat m url
  have hin1 : inEncoding.arr < (terminated nat m url).1.next := by omega
  have hself := terminated_read_self nat (terminated nat m url).1 inEncoding hpos
  rw [terminated_frame nat m url inEncoding hin h1] at hself
  rw [← hself]
  have hlen := terminated_len nat (terminated nat m url).1 inEncoding hpos
  have harr := terminated_arr_lt nat (terminated nat m url).1 inEncoding hin1
  apply List.map_congr_left
  intro i hi
  have hlt : i < inEncoding.len + 1 := by
    have := List.mem_range.mp hi
    omega
  rcases terminated_bytes nat (terminated nat (terminated nat m url).1 inEncoding).1 outEncoding
    (terminated nat (terminated nat m url).1 inEncoding).2.arr
    ((terminated nat (terminated nat m url).1 inEncoding).2.off + i) harr with
    h | ⟨hz, ho1, ho2, ho3, ho4⟩
  · exact h
  · rw [hz]
    rcases terminated_shape nat (terminated nat m url).1 inEncoding hpos with ⟨ha, hf⟩ | ha
    · by_cases hi2 : i < inEncoding.len
      · exact absurd ⟨ho1, ho2, by omega, by omega, by omega⟩ h2
      · have hie : i = inEncoding.len := by omega
        rw [hie]
        exact (terminated_last nat (terminated nat m url).1 inEncoding hpos).symm
    · omega

/-- The output encoding `Parse` stores holds the given bytes and then `0`, when the
in-place appends of `url` and of `inEncoding` do not write inside it. -/
theorem Parse_reads_OutEncoding (nat : Native) (m : Mem) (inEncoding url outEncoding : Slice)
    (hpos : 0 < outEncoding.len) (hout : outEncoding.arr < m.next)
    (h3 : ¬ writesInto url outEncoding) (h4 : ¬ writesInto inEncoding outEncoding) :
    (terminated nat (terminated nat (terminated nat m url).1 inEncoding).1 outEncoding).1.read
      (terminated nat (terminated nat (terminated nat m url).1 inEncoding).1 outEncoding).2 =
      m.read outEncoding ++ [0] := by
  have hn1 : m.next ≤ (terminated nat m url).1.next := terminated_next nat m url
  have hout1 : outEncoding.arr < (terminated nat m url).1.next := by omega
  rw [terminated_read_self nat _ outEncoding hpos,
    terminated_frame nat _ inEncoding outEncoding hout1 h4,
    terminated_frame nat m url outEncoding hout h3]

/-- C10, counterexample: the content `<a/>` parsed with `inEncoding = enc[0:3]` and
`outEncoding = enc[0:5]`, two slices of one array `enc` that holds `utf-8`.  The
append to `inEncoding` writes `0` over `enc[3]`, so the output encoding, given as
`utf-8`, is stored as `utf`, `0`, `8`, `0`: not the given bytes with a `0` appended. -/
theorem Parse_append_overwrites_shared_encoding :
    (Mem.ofArrays [[60, 97, 47, 62], [117, 116, 102, 45, 56]]).read
      { arr := 1, off := 0, len := 5, cap := 5 } = [117, 116, 102, 45, 56] ∧
    (Parse (Native.sample 3 1 none) (Mem.ofArrays [[60, 97, 47, 62], [117, 116, 102, 45, 56]])
      { arr := 0, off := 0, len := 4, cap := 4 } { arr := 1, off := 0, len := 3, cap := 5 }
      Slice.nil 0 { arr := 1, off := 0, len := 5, cap := 5 }).doc.map
      (fun doc => (Parse (Native.sample 3 1 none)
        (Mem.ofArrays [[60, 97, 47, 62], [117, 116, 102, 45, 56]])
        { arr := 0, off := 0, len := 4, cap := 4 } { arr := 1, off := 0, len := 3, cap := 5 }
        Slice.nil 0 { arr := 1, off := 0, len := 5, cap := 5 }).mem.read
        doc.OutputEncoding) = some [117, 116, 102, 0, 56, 0] ∧
    ([117, 116, 102, 0, 56, 0] : Bytes) ≠ [117, 116, 102, 45, 56] ++ [0] := by
  decide

/-- C10, as amended: the encodings a successful `Parse` stores, which
`InputEncoding()` and `OutputEncoding()` return, depend on the content.  With empty
content both are the slices given, and no byte is written.  With non-empty content
an empty encoding is stored as given, and a non-empty encoding is stored as the
slice `append(encoding, 0)` returns, one byte longer; that slice holds the given
bytes and then a `0` byte provided the in-place appends of the other two arguments
(`url` and the other encoding) do not write inside the encoding, the encodings
being slices of allocated arrays.  `ParseFragment` passes on the stored input
encoding. -/
theorem Parse_stored_encodings (nat : Native) (m : Mem) (content inEncoding url : Slice)
    (options : Int) (outEncoding : Slice) (doc : XmlDocument)
    (hd : (Parse nat m content inEncoding url options outEncoding).doc = some doc)
    (h : Heap) (d : DocRef) (input url2 : Slice) (options2 : Int) (fresh : FragRef) :
    (0 < content.len →
      (0 < inEncoding.len →
        doc.InputEncoding = (append nat (terminated nat m url).1 inEncoding 0).2 ∧
        doc.InputEncoding.len = inEncoding.len + 1 ∧
        (inEncoding.arr < m.next → outEncoding.arr < m.next →
          ¬ writesInto url inEncoding → ¬ writesInto outEncoding inEncoding →
          (Parse nat m content inEncoding url options outEncoding).mem.read
            doc.InputEncoding = m.read inEncoding ++ [0])) ∧
      (inEncoding.len = 0 →
        doc.InputEncoding = inEncoding ∧
        (Parse nat m content inEncoding url options outEncoding).mem.read
          doc.InputEncoding = []) ∧
      (0 < outEncoding.len →
        doc.OutputEncoding =
          (append nat (terminated nat (terminated nat m url).1 inEncoding).1 outEncoding 0).2 ∧
        doc.OutputEncoding.len = outEncoding.len + 1 ∧
        (outEncoding.arr < m.next →
          ¬ writesInto url outEncoding → ¬ writesInto inEncoding outEncoding →
          (Parse nat m content inEncoding url options outEncoding).mem.read
            doc.OutputEncoding = m.read outEncoding ++ [0])) ∧
      (outEncoding.len = 0 →
        doc.OutputEncoding = outEncoding ∧
        (Parse nat m content inEncoding url options outEncoding).mem.read
          doc.OutputEncoding = [])) ∧
    (content.len = 0 →
      doc.InputEncoding = inEncoding ∧ doc.OutputEncoding = outEncoding ∧
      (Parse nat m content inEncoding url options outEncoding).mem = m) ∧
    XmlDocument.ParseFragment nat d input url2 options2 fresh (h.setDoc d doc) =
      parsefragment nat d input doc.InputEncoding url2 options2 fresh (h.setDoc d doc) ∧
    (XmlDocument.ParseFragment nat d input url2 options2 fresh (h.setDoc d doc)).1.trace =
      h.trace ++ [Call.xmlParseFragment doc.Ptr input doc.InputEncoding url2 options2] := by
  have hN := Parse_doc_eq_NewDocument nat m content inEncoding url options outEncoding doc hd
  have hM := Parse_mem nat m content inEncoding url options outEncoding
  have hI : doc.InputEncoding =
      (if 0 < content.len then (terminated nat (terminated nat m url).1 inEncoding).2
        else inEncoding) := by
    rw [hN]; rfl
  have hO : doc.OutputEncoding =
      (if 0 < content.len then
        (terminated nat (terminated nat (terminated nat m url).1 inEncoding).1 outEncoding).2
        else outEncoding) := by
    rw [hN]; rfl
  have hread : ∀ (m1 : Mem) (s : Slice), s.len = 0 → m1.read s = [] := by
    intro m1 s hs
    simp [Mem.read, hs]
  refine ⟨?_, ?_, ?_, ?_⟩
  · intro hc
    rw [if_pos hc] at hI hO hM
    rw [hI, hO, hM]
    refine ⟨?_, ?_, ?_, ?_⟩
    · intro hpos
      refine ⟨by simp [terminated, hpos], terminated_len nat _ inEncoding hpos, ?_⟩
      intro hin hout h1 h2
      exact Parse_reads_InEncoding nat m inEncoding url outEncoding hpos hin hout h1 h2
    · intro h0
      have hi := terminated_of_empty nat (terminated nat m url).1 inEncoding h0
      refine ⟨by rw [hi], hread _ _ (by rw [hi]; exact h0)⟩
    · intro hpos
      refine ⟨by simp [terminated, hpos], terminated_len nat _ outEncoding hpos, ?_⟩
      intro hout h3 h4
      exact Parse_reads_OutEncoding nat m inEncoding url outEncoding hpos hout h3 h4
    · intro h0
      have ho := terminated_of_empty nat
        (terminated nat (terminated nat m url).1 inEncoding).1 outEncoding h0
      refine ⟨by rw [ho], hread _ _ (by rw [ho]; exact h0)⟩
  · intro hc
    have hc0 : ¬ 0 < content.len := by omega
    rw [if_neg hc0] at hI hO hM
    exact ⟨hI, hO, hM⟩
  · simp [XmlDocument.ParseFragment, Heap.setDoc]
  · simp only [XmlDocument.ParseFragment, parsefragment]
    split <;>
      simp [Heap.setDoc, Heap.emit, Heap.setFrag, Heap.BookkeepFragment,
        XmlDocument.DocPtr, XmlDocument.InputEncoding]

/-- C10, witness: `<a/>` parsed with input encoding `u`, a slice with one spare byte
in an array of its own, and no output encoding: the append is in place and the
stored encoding holds `u` and then `0`. -/
theorem Parse_stored_encodings_witness :
    (Parse (Native.sample 3 1 none) (Mem.ofArrays [[60, 97, 47, 62], [117, 9]])
      { arr := 0, off := 0, len := 4, cap := 4 } { arr := 1, off := 0, len := 1, cap := 2 }
      Slice.nil 0 Slice.nil).doc =
      some (NewDocument (Native.sample 3 1 none) 3 4 { arr := 1, off := 0, len := 2, cap := 2 }
        Slice.nil).1 ∧
    (Parse (Native.sample 3 1 none) (Mem.ofArrays [[60, 97, 47, 62], [117, 9]])
      { arr := 0, off := 0, len := 4, cap := 4 } { arr := 1, off := 0, len := 1, cap := 2 }
      Slice.nil 0 Slice.nil).mem.read
      (NewDocument (Native.sample 3 1 none) 3 4 { arr := 1, off := 0, len := 2, cap := 2 }
        Slice.nil).1.InputEncoding = [117, 0] :=
  have h := ((Parse_stored_encodings (Native.sample 3 1 none)
    (Mem.ofArrays [[60, 97, 47, 62], [117, 9]])
    { arr := 0, off := 0, len := 4, cap := 4 } { arr := 1, off := 0, len := 1, cap := 2 }
    Slice.nil 0 Slice.nil
    (NewDocument (Native.sample 3 1 none) 3 4 { arr := 1, off := 0, len := 2, cap := 2 }
      Slice.nil).1 (by decide)
    Heap.sample 0 Slice.nil Slice.nil 0 0).1 (by decide)).1 (by decide)
  ⟨by decide, h.2.2 (by decide) (by decide) (by decide) (by decide)⟩

/-! ## Fragments -/

/-- C7: a fragment's `Remove` appends every one of its node handles to the registry
of its owning document and empties the fragment's handle list, so that a second
`Remove` changes no registry.  For a fragment that `ParseFragment` created with
handles `[b, c]` and bookkept on a new document, `Remove` followed by `Free` calls
`Remove` once more and then `xmlFreeNode` on `b` and on `c`, once each, and on
nothing else. -/
theorem Remove_migrates_handles (h : Heap) (f : FragRef) (nat : Native) (w : Heap)
    (d : DocRef) (p : Pointer) (contentLen : Nat) (inEncoding outEncoding input url : Slice)
    (options : Int) (fresh : FragRef) (b c : Pointer)
    (hp : nat.xmlParseFragment w.mem p input inEncoding url options = some [b, c]) :
    (((DocumentFragment.Remove f h).docs (h.frags f).Document).UnlinkedNodes =
        (h.docs (h.frags f).Document).UnlinkedNodes ++ (h.frags f).Nodes ∧
      ((DocumentFragment.Remove f h).frags f).Nodes = [] ∧
      (DocumentFragment.Remove f (DocumentFragment.Remove f h)).docs =
        (DocumentFragment.Remove f h).docs ∧
      ((DocumentFragment.Remove f (DocumentFragment.Remove f h)).frags f).Nodes = []) ∧
    (let r := XmlDocument.ParseFragment nat d input url options fresh
        (w.setDoc d (NewDocument nat p contentLen inEncoding outEncoding).1)
     r.2.1 = some fresh ∧ r.2.2 = none ∧
     r.1.frags fresh = { Nodes := [b, c], Document := d } ∧
     (r.1.docs d).fragments = [fresh] ∧
     ((DocumentFragment.Remove fresh r.1).docs d).UnlinkedNodes = [b, c] ∧
     FreeCalls d (DocumentFragment.Remove fresh r.1) =
       [Call.Remove fresh, Call.xmlFreeNode b, Call.xmlFreeNode c,
        Call.XPathFree (NewXPath p), Call.xmlFreeDoc p] ∧
     (b ≠ c →
       (FreeCalls d (DocumentFragment.Remove fresh r.1)).count (Call.xmlFreeNode b) = 1 ∧
       (FreeCalls d (DocumentFragment.Remove fresh r.1)).count (Call.xmlFreeNode c) = 1)) := by
  have hR1 : ((DocumentFragment.Remove f h).frags f).Nodes = [] := by
    simp [Remove_frags]
  have hR2 : (DocumentFragment.Remove f (DocumentFragment.Remove f h)).docs =
      (DocumentFragment.Remove f h).docs := by
    funext r
    rw [Remove_docs f (DocumentFragment.Remove f h), hR1]
    simp
  refine ⟨⟨?_, hR1, hR2, ?_⟩, ?_⟩
  · simp [Remove_docs]
  · simp [Remove_frags]
  · intro r
    have hr : r = ((w.setDoc d (NewDocument nat p contentLen inEncoding outEncoding).1).emit
          (Call.xmlParseFragment p input inEncoding url options) |>.setFrag fresh
          { Nodes := [b, c], Document := d } |>.BookkeepFragment d fresh, some fresh, none) := by
      simp [r, XmlDocument.ParseFragment, parsefragment, Heap.setDoc, NewDocument,
        XmlDocument.DocPtr, XmlDocument.InputEncoding, hp]
    have hfr : r.1.frags fresh = { Nodes := [b, c], Document := d } := by
      simp [hr, Heap.BookkeepFragment, Heap.setDoc, Heap.setFrag, Heap.emit]
    have hdoc : r.1.docs d =
        ((NewDocument nat p contentLen inEncoding outEncoding).1).BookkeepFragment fresh := by
      simp [hr, Heap.BookkeepFragment, Heap.setDoc, Heap.setFrag, Heap.emit]
    have hdoc2 : (DocumentFragment.Remove fresh r.1).docs d =
        { (NewDocument nat p contentLen inEncoding outEncoding).1 with
          UnlinkedNodes := [b, c], fragments := [fresh] } := by
      rw [Remove_docs, hfr, hdoc]
      simp [NewDocument, XmlDocument.BookkeepFragment]
    have hfr2 : (DocumentFragment.Remove fresh r.1).frags fresh =
        { Nodes := [], Document := d } := by
      rw [Remove_frags, hfr]
      simp
    have hcalls : FreeCalls d (DocumentFragment.Remove fresh r.1) =
        [Call.Remove fresh, Call.xmlFreeNode b, Call.xmlFreeNode c,
         Call.XPathFree (NewXPath p), Call.xmlFreeDoc p] := by
      rw [FreeCalls_eq, registryAfterRemovals_eq, hdoc2]
      simp [migrated, hfr2, NewDocument]
    refine ⟨by rw [hr], by rw [hr], hfr, ?_, ?_, hcalls, ?_⟩
    · rw [hdoc]
      simp [NewDocument, XmlDocument.BookkeepFragment]
    · rw [hdoc2]
    · intro hbc
      rw [hcalls]
      have hcb : ¬ c = b := fun e => hbc e.symm
      simp [List.count_cons, hbc, hcb]

/-- C7, witness: the fragment `<b/><c/>`, the eight bytes of backing array `0`,
parsed into handles `20` and `21` on a new document over handle `1`. -/
theorem Remove_migrates_handles_witness :
    (Native.sample 1 1 (some [20, 21])).xmlParseFragment
      (Heap.sample.withMem (Mem.ofArrays [[60, 98, 47, 62, 60, 99, 47, 62]])).mem 1
      { arr := 0, off := 0, len := 8, cap := 8 } Slice.nil Slice.nil 0 = some [20, 21] ∧
    FreeCalls 0 (DocumentFragment.Remove 5
      (XmlDocument.ParseFragment (Native.sample 1 1 (some [20, 21])) 0
        { arr := 0, off := 0, len := 8, cap := 8 } Slice.nil 0 5
        ((Heap.sample.withMem (Mem.ofArrays [[60, 98, 47, 62, 60, 99, 47, 62]])).setDoc 0
          (NewDocument (Native.sample 1 1 (some [20, 21])) 1 0 Slice.nil Slice.nil).1)).1) =
      [Call.Remove 5, Call.xmlFreeNode 20, Call.xmlFreeNode 21,
       Call.XPathFree (NewXPath 1), Call.xmlFreeDoc 1] :=
  ⟨rfl, (Remove_migrates_handles Heap.sample 5 (Native.sample 1 1 (some [20, 21]))
    (Heap.sample.withMem (Mem.ofArrays [[60, 98, 47, 62, 60, 99, 47, 62]])) 0 1 0 Slice.nil
    Slice.nil { arr := 0, off := 0, len := 8, cap := 8 } Slice.nil 0 5 20 21
    rfl).2.2.2.2.2.2.1⟩

/-! ## Evaluations on a concrete heap -/

/-- C1, witness: a document with registry `[10]` and two distinct fragments of its
own, with handles `20, 21` and `22`; after the removals the registry is
`[10, 20, 21, 22]`. -/
theorem Free_call_sequence_witness :
    registryAfterRemovals 0
      (((((Heap.sample.setFrag 3 { Nodes := [20, 21], Document := 0 }).setFrag 4
        { Nodes := [22], Document := 0 }).AddUnlinkedNode 0 10).BookkeepFragment 0
        3).BookkeepFragment 0 4) = [10, 20, 21, 22] :=
  (Free_call_sequence 0
    (((((Heap.sample.setFrag 3 { Nodes := [20, 21], Document := 0 }).setFrag 4
      { Nodes := [22], Document := 0 }).AddUnlinkedNode 0 10).BookkeepFragment 0
      3).BookkeepFragment 0 4)).2.2.2.1 (by decide) (by decide)

/-- C2, witness: handle `7` registered once on a new document is freed once. -/
theorem Free_frees_each_registry_entry_once_witness :
    (FreeCalls 0 (runOps 0 [Op.AddUnlinkedNode 7, Op.BookkeepFragment 3, Op.Remove 3]
      (Heap.sample.setDoc 0 (NewDocument (Native.sample 1 1 none) 1 0 Slice.nil Slice.nil).1))).count
      (Call.xmlFreeNode 7) = 1 :=
  (Free_frees_each_registry_entry_once (Native.sample 1 1 none) Heap.sample 0 1 0 Slice.nil
    Slice.nil
    [Op.AddUnlinkedNode 7, Op.BookkeepFragment 3, Op.Remove 3]).2.1 7 (by decide)

/-- C5, witness: registering handle `7` on a registry that holds it leaves two
entries for it. -/
theorem AddUnlinkedNode_appends_witness :
    2 ≤ (((NewDocument (Native.sample 1 1 none) 1 0 Slice.nil Slice.nil).1.AddUnlinkedNode
      7).AddUnlinkedNode 7).UnlinkedNodes.count 7 :=
  (AddUnlinkedNode_appends ((NewDocument (Native.sample 1 1 none) 1 0 Slice.nil Slice.nil).1.AddUnlinkedNode 7)
    7 Heap.sample 0).2.2.2.2.1 (by decide)

/-- A document with registry `[10]` and fragments `3` (handles `20, 21`) and `4`
(handle `22`, owned by another document): `Free` removes both, frees `10, 20, 21`,
then the XPath context, then the tree. -/
theorem Free_evaluates_two_fragments :
    FreeCalls 0
      ((((((Heap.sample.setFrag 3 { Nodes := [20, 21], Document := 0 }).setFrag 4
        { Nodes := [22], Document := 1 }).AddUnlinkedNode 0 10).BookkeepFragment 0 3).BookkeepFragment
        0 4)) =
      [Call.Remove 3, Call.Remove 4, Call.xmlFreeNode 10, Call.xmlFreeNode 20,
       Call.xmlFreeNode 21, Call.XPathFree (NewXPath 1), Call.xmlFreeDoc 1] := by
  decide

/-- A fragment bookkept twice is removed twice by `Free`, and its handles are freed
once: the second removal finds the handle list empty. -/
theorem Free_evaluates_double_bookkeeping :
    FreeCalls 0
      (((Heap.sample.setFrag 3 { Nodes := [20, 21], Document := 0 }).BookkeepFragment 0
        3).BookkeepFragment 0 3) =
      [Call.Remove 3, Call.Remove 3, Call.xmlFreeNode 20, Call.xmlFreeNode 21,
       Call.XPathFree (NewXPath 1), Call.xmlFreeDoc 1] := by
  decide

end Gokogiri
